import Mathlib

/-!
Verification of the corneal-topography batch pipeline (stages S1-S4)
against its natural-language specification.

Each Rust binary is shallowly embedded in its own namespace:

* `ExtractCsvDataMulti` - S1 section extractor (extract_csv_data_multi);
* `CsvDuplicateFuzzy`  - S2 sample deduper (csv_duplicate_fuzzy);
* `GridFixMulti`       - S3 grid assembler (grid_fix_multi);
* `CsvTo8`             - S4 radial splitter (csv_to_8).

Conventions of the embedding:

* Rust `f64` values are modelled as real numbers; the source's
  `is_nan`/`is_finite` guards are vacuous over `ℝ` and noted where dropped.
  The one value that can genuinely be NaN (`alpha_angle`, produced by an
  explicit `f64::NAN`) is modelled as `Option ℝ` with `none` for NaN.
* A Rust computation that can panic (slice indexing out of bounds,
  `Option::unwrap`) is modelled in the `Panics` monad below.
* Rust `str::split`, `str::trim` and `[T]::join` are re-implemented by
  structural recursion on the character list so that concrete instances
  reduce inside `decide`.
* File-system effects are modelled as event traces (`S1Event`, `S2Event`,
  `S3Event`), in the order the source performs them.
-/

/-- Result of a Rust computation that may panic (out-of-bounds indexing,
`Option::unwrap` on `None`). `panicked` aborts the rest of the computation,
like an unwinding Rust panic. -/
inductive Panics (α : Type) where
  | ok : α → Panics α
  | panicked : Panics α
deriving DecidableEq, Repr

namespace Panics

def bindP : Panics α → (α → Panics β) → Panics β
  | .ok a, f => f a
  | .panicked, _ => .panicked

instance : Monad Panics where
  pure := .ok
  bind := bindP

end Panics

/-- Rust slice indexing `l[i]`: returns the element, or panics when out of
bounds. -/
def rustIndex (l : List α) (i : ℕ) : Panics α :=
  match l.get? i with
  | some a => .ok a
  | none => .panicked

/-- Rust `char::is_whitespace`, restricted to the ASCII whitespace that the
instrument files contain (Lean's `Char.isWhitespace`). -/
def rustIsWhitespace (c : Char) : Bool := c.isWhitespace

/-- Rust `str::trim`: strip leading and trailing whitespace. -/
def rustTrim (s : String) : String :=
  String.mk (((s.toList.dropWhile rustIsWhitespace).reverse.dropWhile
    rustIsWhitespace).reverse)

/-- Helper for `rustSplit`: split a character list at every separator,
accumulating the current field in reverse. -/
def rustSplitAux (sep : Char) : List Char → List Char → List (List Char)
  | [], acc => [acc.reverse]
  | c :: cs, acc =>
    if c = sep then acc.reverse :: rustSplitAux sep cs []
    else rustSplitAux sep cs (c :: acc)

/-- Rust `str::split(sep)`: yields (possibly empty) fields between separator
occurrences; `"".split(sep)` yields one empty field. -/
def rustSplit (sep : Char) (s : String) : List String :=
  (rustSplitAux sep s.toList []).map fun cs => String.mk cs

/-- Rust `[&str]::join(sep)` for a one-character separator. -/
def rustJoinAux (sep : Char) : List String → List Char
  | [] => []
  | [s] => s.toList
  | s :: rest => s.toList ++ sep :: rustJoinAux sep rest

def rustJoin (sep : Char) (l : List String) : String :=
  String.mk (rustJoinAux sep l)

namespace CsvDuplicateFuzzy

/-! ## S2 - sample deduper (`csv_duplicate_fuzzy/src/main.rs`)

The dedupe logic depends on the filesystem only through the list of CSV
filenames in directory-listing order; that list is the embedding's input.
The source iterates a `std::collections::HashMap` whose iteration order is
unspecified and varies across processes; the embedding takes that order as
an explicit `iteration_order` parameter (a permutation of the group keys).
-/

structure FileInfo where
  filename : String
  sequence : ℕ
deriving DecidableEq, Repr

structure DuplicateReport where
  keep_file : String
  remove_file : String
  reason : String
deriving DecidableEq, Repr

/-- Rust `str::parse::<u32>` applied to the digit-filtered sequence field:
the input is all digits, so parsing fails exactly on an empty string or on
`u32` overflow. -/
def parse_u32_digits (digits : List Char) : Option ℕ :=
  if digits.isEmpty then none
  else
    let v := digits.foldl (fun acc c => acc * 10 + (c.toNat - 48)) 0
    if v < 4294967296 then some v else none

/-- `parse_filename` from the source: splits on `'_'`, checks
`parts.len() >= 5`, then reads `parts[4]` (eye) and `parts[5]` (sequence).
The read of `parts[5]` is *out of bounds* when the name has exactly five
fields, which panics; `rustIndex` models that. -/
def parse_filename (filename : String) : Panics (Option (String × String × ℕ)) :=
  let parts := rustSplit '_' filename
  if 5 ≤ parts.length then do
    let eye_indicator ← rustIndex parts 4
    let sequence_str ← rustIndex parts 5
    let base_name := rustJoin '_' (parts.take 4)
    match parse_u32_digits (sequence_str.toList.filter Char.isDigit) with
    | some sequence => pure (some (base_name, eye_indicator, sequence))
    | none => pure none
  else pure none

/-- Insert a parsed file into the group map (`file_groups.entry(key)
.or_default().push(...)`): the association list is the map's *contents*;
iteration order is handled separately. -/
def groupInsert (key : String × String) (info : FileInfo) :
    List ((String × String) × List FileInfo) → List ((String × String) × List FileInfo)
  | [] => [(key, [info])]
  | g :: gs =>
    if g.1 = key then (g.1, g.2 ++ [info]) :: gs else g :: groupInsert key info gs

def build_groups : List String → List ((String × String) × List FileInfo) →
    Panics (List ((String × String) × List FileInfo))
  | [], acc => .ok acc
  | filename :: rest, acc => do
    let parsed ← parse_filename filename
    match parsed with
    | some (base, eye, sequence) =>
        build_groups rest (groupInsert (base, eye) ⟨filename, sequence⟩ acc)
    | none => build_groups rest acc

/-- Grouping loop of `find_duplicates`, over the filenames in
directory-listing order. -/
def file_groups (csv_files : List String) :
    Panics (List ((String × String) × List FileInfo)) :=
  build_groups csv_files []

/-- Stable insertion into a list sorted by `sequence`; equal keys keep the
earlier element first, as Rust's stable `sort_by_key` does. -/
def insertBySeq (a : FileInfo) : List FileInfo → List FileInfo
  | [] => [a]
  | b :: bs => if a.sequence ≤ b.sequence then a :: b :: bs else b :: insertBySeq a bs

/-- Rust `files.sort_by_key(|f| f.sequence)` (a stable ascending sort). -/
def sortBySeq : List FileInfo → List FileInfo
  | [] => []
  | a :: as_ => insertBySeq a (sortBySeq as_)

def reason_line (keep_seq remove_seq : ℕ) (eye : String) : String :=
  "Keep sequence " ++ toString keep_seq ++ " (lower) vs " ++
    toString remove_seq ++ " (higher) for eye " ++ eye

/-- Per-group body of `find_duplicates`: groups with more than one member are
sorted by sequence; the first is kept, the rest become removal reports. -/
def group_reports (eye : String) (files : List FileInfo) : List DuplicateReport :=
  if 1 < files.length then
    match sortBySeq files with
    | [] => []
    | keep_file :: rest =>
      rest.map fun remove_file =>
        ⟨keep_file.filename, remove_file.filename,
          reason_line keep_file.sequence remove_file.sequence eye⟩
  else []

/-- `find_duplicates`: `iteration_order` abstracts the unspecified order in
which the source's `for ((_base, eye), mut files) in file_groups` visits the
`HashMap`; a real run uses some permutation of the distinct group keys. -/
def find_duplicates (csv_files : List String)
    (iteration_order : List (String × String)) : Panics (List DuplicateReport) := do
  let groups ← file_groups csv_files
  pure (iteration_order.flatMap fun key =>
    match groups.find? (fun g => g.1 == key) with
    | some g => group_reports key.2 g.2
    | none => [])

inductive S2Event where
  | writeAudit (reports : List DuplicateReport)
  | deleteFile (filename : String)
deriving DecidableEq, Repr

/-- `remove_duplicate_files`: delete each report's `remove_file` if it still
exists; returns the deletion events in order and the remaining disk. -/
def remove_duplicate_files (disk : List String) :
    List DuplicateReport → List S2Event × List String
  | [] => ([], disk)
  | report :: rest =>
    if report.remove_file ∈ disk then
      let next := remove_duplicate_files (disk.erase report.remove_file) rest
      (S2Event.deleteFile report.remove_file :: next.1, next.2)
    else remove_duplicate_files disk rest

/-- Effect trace of `main`: when there are duplicates, the audit CSV is
written first and the removal files are deleted afterwards. -/
def s2_main (csv_files : List String)
    (iteration_order : List (String × String)) : Panics (List S2Event) := do
  let reports ← find_duplicates csv_files iteration_order
  if reports.isEmpty then pure []
  else
    pure (S2Event.writeAudit reports ::
      (remove_duplicate_files csv_files reports).1)

end CsvDuplicateFuzzy

namespace CsvTo8

/-! ## S4 - radial splitter (`csv_to_8/src/main.rs`, split mode)

`process_file` is modelled on the parsed CSV content: the header record and
the list of data records. Per-`Radial_Index` writers are an association list
from target index to the records written so far, mirroring the
`HashMap<i32, Writer>` of the source (each data record is written to at most
the one writer keyed by its parsed `Radial_Index`).
-/

/-- Rust `str::parse::<i32>`: an optional sign followed by at least one
digit, no other characters, rejecting values outside the `i32` range. -/
def parse_i32 (s : String) : Option ℤ :=
  let chars := s.toList
  let signed : ℤ × List Char :=
    match chars with
    | '-' :: rest => (-1, rest)
    | '+' :: rest => (1, rest)
    | _ => (1, chars)
  if signed.2.isEmpty ∨ ¬ signed.2.all Char.isDigit then none
  else
    let mag : ℕ := signed.2.foldl (fun acc c => acc * 10 + (c.toNat - 48)) 0
    let v : ℤ := signed.1 * mag
    if -2147483648 ≤ v ∧ v < 2147483648 then some v else none

/-- The routing test for one record and one target index: the record has a
cell in the `Radial_Index` column and that cell parses to exactly `k`. -/
def radial_pred (radial_index_col : ℕ) (k : ℤ) (record : List String) : Bool :=
  match record[radial_index_col]? with
  | some value =>
    match parse_i32 value with
    | some index => index == k
    | none => false
  | none => false

/-- Append `record` to the buffer of the writer keyed `k` (Rust
`writers.get_mut(&index)` followed by `write_record`). -/
def writer_insert (writers : List (ℤ × List (List String))) (k : ℤ)
    (record : List String) : List (ℤ × List (List String)) :=
  writers.map fun w => if w.1 = k then (w.1, w.2 ++ [record]) else w

/-- The record loop of `process_file`: for each record, read the
`Radial_Index` cell (silently skip absent cells), parse it as `i32`
(silently skip parse failures), and write the record to the matching
writer when one exists. -/
def route_records (radial_index_col : ℕ)
    (writers : List (ℤ × List (List String))) :
    List (List String) → List (ℤ × List (List String))
  | [] => writers
  | record :: rest =>
    match record[radial_index_col]? with
    | some value =>
      match parse_i32 value with
      | some index =>
        if (writers.map fun w => w.1).contains index then
          route_records radial_index_col (writer_insert writers index record) rest
        else route_records radial_index_col writers rest
      | none => route_records radial_index_col writers rest
    | none => route_records radial_index_col writers rest

/-- `process_file` (split mode): find the `Radial_Index` column in the
header (an error for this file when absent), create one empty writer per
target index, then route every data record. Each writer's final buffer is
the content of `radial_<k>/<file>` after its duplicated header. -/
def process_file (headers : List String) (records : List (List String))
    (radial_indices : List ℤ) : Except String (List (ℤ × List (List String))) := do
  let radial_index_col ←
    match headers.findIdx? (fun header => header == "Radial_Index") with
    | some i => Except.ok i
    | none => Except.error "Radial_Index column not found"
  Except.ok (route_records radial_index_col
    (radial_indices.map fun index => (index, [])) records)

/-- Membership of a record's parsed `Radial_Index` in the target set; the
filter the specification describes. -/
def in_targets (radial_index_col : ℕ) (targets : List ℤ)
    (record : List String) : Bool :=
  match record[radial_index_col]? with
  | some value =>
    match parse_i32 value with
    | some index => targets.contains index
    | none => false
  | none => false

end CsvTo8

namespace ExtractCsvDataMulti

/-! ## S1 - section extractor (`extract_csv_data_multi/src/main.rs`)

A CSV file is modelled as the list of records the (flexible, headerless)
reader yields; each record is a list of string cells. The two passes of
`process_csv_for_marker` read the same file, hence the same record list.
-/

def ROWS_TO_KEEP : ℕ := 256
def COLS_TO_KEEP : ℕ := 32

/-- The matching test of `find_marker_row_index`'s loop body: the record has
a first cell and that cell, trimmed, equals the marker exactly. -/
def marker_pred (marker : String) (row : List String) : Bool :=
  match row.head? with
  | some first_col => rustTrim first_col == marker
  | none => false

/-- `find_marker_row_index`: zero-based index of the first record whose
first cell, trimmed, equals the marker; an error when no record matches. -/
def find_marker_row_index (rows : List (List String)) (marker : String) :
    Except String ℕ :=
  match rows.findIdx? (marker_pred marker) with
  | some i => Except.ok i
  | none => Except.error ("Marker not found: " ++ marker)

/-- The copy loop of `process_csv_for_marker`: records indexed
`start_row ≤ i < end_row` are considered (the loop breaks at `end_row`);
a considered record with fewer than `COLS_TO_KEEP` cells is skipped with a
warning, otherwise its first `COLS_TO_KEEP` cells are written. Returns
(written records, warned records), each in input order. -/
def collect_rows (start_row end_row : ℕ) :
    List (List String) → ℕ → List (List String) × List (List String)
  | [], _ => ([], [])
  | row :: rest, i =>
    if end_row ≤ i then ([], [])
    else if start_row ≤ i then
      if row.length < COLS_TO_KEEP then
        let next := collect_rows start_row end_row rest (i + 1)
        (next.1, row :: next.2)
      else
        let next := collect_rows start_row end_row rest (i + 1)
        (row.take COLS_TO_KEEP :: next.1, next.2)
    else collect_rows start_row end_row rest (i + 1)

structure MarkerOutput where
  written : List (List String)
  short_row_warnings : List (List String)
  shortfall_warning : Bool
deriving DecidableEq, Repr

/-- `process_csv_for_marker`, output side: find the marker, copy the rows in
`[marker index + rows_to_skip, marker index + rows_to_skip + 256)`, report an
error when zero rows were written, and warn when fewer than 256 were. -/
def process_csv_for_marker (rows : List (List String)) (marker : String)
    (rows_to_skip : ℕ) : Except String MarkerOutput := do
  let marker_row_index ← find_marker_row_index rows marker
  let start_row := marker_row_index + rows_to_skip
  let end_row := start_row + ROWS_TO_KEEP
  let collected := collect_rows start_row end_row rows 0
  if collected.1.length = 0 then
    Except.error ("No rows written for marker " ++ marker)
  else
    Except.ok ⟨collected.1, collected.2, collected.1.length != ROWS_TO_KEEP⟩

inductive S1Event where
  | createOutput
  | writeRow (row : List String)
deriving DecidableEq, Repr

/-- Effect trace of `process_csv_for_marker`: once the marker is found the
output file is created (truncating any previous content) *before* the copy
loop runs; the zero-rows error is raised afterwards and nothing deletes the
created file. -/
def process_csv_for_marker_trace (rows : List (List String)) (marker : String)
    (rows_to_skip : ℕ) : List S1Event × Except String ℕ :=
  match find_marker_row_index rows marker with
  | Except.error e => ([], Except.error e)
  | Except.ok marker_row_index =>
    let start_row := marker_row_index + rows_to_skip
    let end_row := start_row + ROWS_TO_KEEP
    let written := (collect_rows start_row end_row rows 0).1
    (S1Event.createOutput :: written.map S1Event.writeRow,
      if written.length = 0 then
        Except.error ("No rows written for marker " ++ marker)
      else Except.ok written.length)

end ExtractCsvDataMulti

namespace GridFixMulti

/-! ## S3 - grid assembler (`grid_fix_multi/src/main.rs`)

`f64` values are modelled as `ℝ`. The source's `is_nan`/`is_finite`
rejections in `calculate_stats`, `read_parameter_file` and `scale_value`
are vacuous over `ℝ` (every real is finite) and are dropped; the explicit
`f64::NAN` produced for `alpha_angle` on a zero denominator is modelled as
`Option ℝ` with `none` for NaN. The embedding starts from the eight parsed
parameter vectors (the output of `read_parameter_file` on finite data);
crucially, `read_parameter_file` performs *no length check*, so the vectors
may have any length.
-/

structure Stats where
  mean : ℝ
  std_dev : ℝ

/-- `bessel_j0`: the legacy first-order approximation
`J0(0) = 1`, `J0(x) = cos(sin(x)/x)` otherwise. -/
noncomputable def bessel_j0 (x : ℝ) : ℝ :=
  if x = 0 then 1 else Real.cos (Real.sin x / x)

/-- `fourier_bessel_transform(radial_index, num_radials)`:
`J0(radial_index / (num_radials - 1) · π / 1)`. The caller passes the
*one-based* radial index. -/
noncomputable def fourier_bessel_transform (radial_index num_radials : ℕ) : ℝ :=
  let r_max : ℝ := 1
  let r : ℝ := (radial_index : ℝ) / ((num_radials : ℝ) - 1)
  let alpha : ℝ := Real.pi
  let transformed_r := r * alpha / r_max
  bessel_j0 transformed_r

/-- `calculate_stats`: running-fold mean `Σ (x / n)`, Bessel-corrected
variance fold `Σ ((x - mean)² / (n - 1))` for more than one value, standard
deviation its square root. The `f64` NaN/finiteness error paths cannot fire
over `ℝ`; the empty case returns `mean = 0`, `std_dev = 0` as the source
does. -/
noncomputable def calculate_stats (values : List ℝ) : Stats :=
  if values.isEmpty then ⟨0, 0⟩
  else
    let count : ℝ := values.length
    let mean := values.foldl (fun acc x => acc + x / count) 0
    let variance :=
      if 1 < values.length then
        values.foldl (fun acc x => acc + (x - mean) * (x - mean) / (count - 1)) 0
      else 0
    ⟨mean, Real.sqrt variance⟩

/-- `scale_value`: zero when the standard deviation is not positive,
otherwise the z-score. (The `is_finite` guards are vacuous over `ℝ`.) -/
noncomputable def scale_value (value : ℝ) (stats : Stats) : ℝ :=
  if stats.std_dev ≤ 0 then 0 else (value - stats.mean) / stats.std_dev

def num_meridians : ℕ := 256
def num_radials : ℕ := 32

/-- Geometry block of one output row, from the zero-based loop indices.
All fields are total functions of the indices, exactly as in the source's
row closure. -/
structure GeometryRow where
  meridian_index : ℕ
  radial_index : ℕ
  meridian_angle_deg : ℝ
  meridian_angle_rad : ℝ
  normalized_radius : ℝ
  transformed_radius : ℝ
  cos_theta : ℝ
  sin_theta : ℝ
  x_coordinate : ℝ
  y_coordinate : ℝ

/-- The geometry computations of the row closure in `process_patient_data`,
for zero-based `meridian` and `radial_index`. Note the source passes the
*one-based* `radial_index_1_based` to `fourier_bessel_transform`. -/
noncomputable def gridGeometry (meridian radial_index : ℕ) : GeometryRow :=
  let radial_index_1_based := radial_index + 1
  let meridian_index_1_based := meridian + 1
  let meridian_angle_deg : ℝ :=
    ((meridian_index_1_based : ℝ) - 1) * (360 / (num_meridians : ℝ))
  let meridian_angle_rad := meridian_angle_deg * (Real.pi / 180)
  let normalized_radius : ℝ :=
    ((radial_index_1_based : ℝ) - 1) / ((num_radials : ℝ) - 1)
  let transformed_radius := fourier_bessel_transform radial_index_1_based num_radials
  let cos_theta := Real.cos meridian_angle_rad
  let sin_theta := Real.sin meridian_angle_rad
  { meridian_index := meridian_index_1_based
    radial_index := radial_index_1_based
    meridian_angle_deg := meridian_angle_deg
    meridian_angle_rad := meridian_angle_rad
    normalized_radius := normalized_radius
    transformed_radius := transformed_radius
    cos_theta := cos_theta
    sin_theta := sin_theta
    x_coordinate := transformed_radius * cos_theta
    y_coordinate := transformed_radius * sin_theta }

/-- One full output row: the geometry block, `Alpha_Angle` (`none` models
the `f64::NAN` written on a zero height difference), and the
`(value, scaled)` pair per parameter in declaration order. -/
structure GridRow where
  geometry : GeometryRow
  alpha_angle : Option ℝ
  cells : List (ℝ × ℝ)

/-- The fixed parameter list of `process_patient_data`, with the eight data
vectors in the source's declaration order. -/
def mkParameters (aa ap ea ep ak ha hp pa : List ℝ) : List (String × List ℝ) :=
  [("Axial_Anterior", aa),
   ("Axial_Posterior", ap),
   ("Elevation_Anterior", ea),
   ("Elevation_Posterior", ep),
   ("Axial_Keratometric", ak),
   ("Height_Anterior", ha),
   ("Height_Posterior", hp),
   ("Pachymetry", pa)]

/-- The `stats_map` built in the read loop: one `calculate_stats` per
parameter, keyed by name. (The eight names are distinct, so association
lookup agrees with the source's `HashMap`.) -/
noncomputable def mkStatsMap (parameters : List (String × List ℝ)) :
    List (String × Stats) :=
  parameters.map fun p => (p.1, calculate_stats p.2)

/-- `parameters.iter().find(|(name, _)| *name == target).map(|(_, data)|
data[data_index]).unwrap_or(0.0)`: the indexing panics when out of bounds;
a missing name yields `0.0`. -/
noncomputable def lookup_param_cell (parameters : List (String × List ℝ))
    (target : String) (data_index : ℕ) : Panics ℝ :=
  match parameters.find? (fun p => p.1 == target) with
  | some p => rustIndex p.2 data_index
  | none => .ok 0

/-- The per-parameter loop of the row closure: `param_data[data_index]`
(panics when out of bounds) and `stats_map.get(param_name).unwrap()`
(panics when absent), then `scale_value`. -/
noncomputable def param_cells (stats_map : List (String × Stats))
    (data_index : ℕ) : List (String × List ℝ) → Panics (List (ℝ × ℝ))
  | [] => .ok []
  | p :: rest => do
    let value ← rustIndex p.2 data_index
    match stats_map.find? (fun q => q.1 == p.1) with
    | some q =>
      let scaled := scale_value value q.2
      let tail ← param_cells stats_map data_index rest
      pure ((value, scaled) :: tail)
    | none => Panics.panicked

/-- The row closure of `process_patient_data` for zero-based `meridian` and
`radial_index`: geometry, `Alpha_Angle` from the Pachymetry and Height
cells at `data_index = meridian * 32 + radial_index`, then the
`(value, scaled)` cells. -/
noncomputable def makeRow (parameters : List (String × List ℝ))
    (stats_map : List (String × Stats)) (meridian radial_index : ℕ) :
    Panics GridRow := do
  let geometry := gridGeometry meridian radial_index
  let data_index := meridian * num_radials + radial_index
  let pachymetry ← lookup_param_cell parameters "Pachymetry" data_index
  let height_posterior ← lookup_param_cell parameters "Height_Posterior" data_index
  let height_anterior ← lookup_param_cell parameters "Height_Anterior" data_index
  let height_diff := height_posterior - height_anterior
  let alpha_angle : Option ℝ :=
    if height_diff ≠ 0 then some (pachymetry / height_diff) else none
  let cells ← param_cells stats_map data_index parameters
  pure ⟨geometry, alpha_angle, cells⟩

/-- The nested parallel iterators of `process_patient_data`, flattened in
`(meridian asc, radial asc)` order (the order `collect` preserves). -/
noncomputable def row_jobs (parameters : List (String × List ℝ))
    (stats_map : List (String × Stats)) : List (Panics GridRow) :=
  (List.range num_meridians).flatMap fun meridian =>
    (List.range num_radials).map fun radial_index =>
      makeRow parameters stats_map meridian radial_index

/-- Collect the row results; any panicking row panics the whole collect, as
a rayon worker panic aborts the enclosing `collect`. -/
def collectResults : List (Panics α) → Panics (List α)
  | [] => .ok []
  | x :: xs => do
    let a ← x
    let rest ← collectResults xs
    pure (a :: rest)

noncomputable def process_rows (parameters : List (String × List ℝ))
    (stats_map : List (String × Stats)) : Panics (List GridRow) :=
  collectResults (row_jobs parameters stats_map)

inductive S3Event where
  | createOutput
  | writeHeader
  | writeRow (row : GridRow)

/-- Effect trace of `process_patient_data`, starting from the eight parsed
parameter vectors: the combined output file is created and its header row
written *before* the row collection runs; a panic during collection
therefore leaves a header-only file behind and aborts the run (nothing in
`main` catches it). On success all 8192 rows follow the header. -/
noncomputable def process_patient_data (aa ap ea ep ak ha hp pa : List ℝ) :
    List S3Event × Panics Unit :=
  let parameters := mkParameters aa ap ea ep ak ha hp pa
  let stats_map := mkStatsMap parameters
  match process_rows parameters stats_map with
  | .ok rows =>
    ([S3Event.createOutput, S3Event.writeHeader] ++ rows.map S3Event.writeRow,
      .ok ())
  | .panicked => ([S3Event.createOutput, S3Event.writeHeader], .panicked)

/-- The 1-based `(Meridian_Index, Radial_Index)` pairs in emission order:
the specification's enumeration. -/
def rowIndexPairs : List (ℕ × ℕ) :=
  (List.range num_meridians).flatMap fun meridian =>
    (List.range num_radials).map fun radial_index =>
      (meridian + 1, radial_index + 1)

/-- Strict lexicographic order on `(Meridian_Index, Radial_Index)` pairs:
the "(meridian asc, radial asc)" emission order. -/
def lexLt (p q : ℕ × ℕ) : Prop :=
  p.1 < q.1 ∨ (p.1 = q.1 ∧ p.2 < q.2)

instance : DecidableRel lexLt := fun p q => by
  unfold lexLt
  infer_instance

instance : IsTrans (ℕ × ℕ) lexLt where
  trans p q r hpq hqr := by
    rcases hpq with h1 | ⟨h1, h2⟩ <;> rcases hqr with h3 | ⟨h3, h4⟩ <;>
      unfold lexLt <;> omega

end GridFixMulti

/-! # Theorems -/

@[simp] theorem Panics.ok_bind (a : α) (f : α → Panics β) :
    (Panics.ok a >>= f) = f a := rfl

@[simp] theorem Panics.panicked_bind (f : α → Panics β) :
    ((Panics.panicked : Panics α) >>= f) = Panics.panicked := rfl

@[simp] theorem Panics.pure_eq (a : α) : (pure a : Panics α) = Panics.ok a := rfl

@[simp] theorem rustIndex_eq_ok_iff {l : List α} {i : ℕ} {a : α} :
    rustIndex l i = .ok a ↔ l.get? i = some a := by
  unfold rustIndex
  cases h : l.get? i <;> simp

@[simp] theorem rustIndex_eq_panicked_iff {l : List α} {i : ℕ} :
    rustIndex l i = .panicked ↔ l.length ≤ i := by
  unfold rustIndex
  cases h : l.get? i <;> simp_all [List.get?_eq_none]
  by_contra hc
  rw [List.getElem?_eq_none (Nat.le_of_not_lt hc)] at h
  cases h

theorem rustIndex_ok_of_lt {l : List α} {i : ℕ} (d : α) (h : i < l.length) :
    rustIndex l i = .ok (l.getD i d) := by
  rw [rustIndex_eq_ok_iff, List.getD_eq_getElem?_getD, List.get?_eq_getElem?,
    List.getElem?_eq_getElem h]
  rfl

namespace CsvDuplicateFuzzy

theorem insertBySeq_perm (a : FileInfo) (l : List FileInfo) :
    (insertBySeq a l).Perm (a :: l) := by
  induction l with
  | nil => simp [insertBySeq]
  | cons b bs ih =>
    unfold insertBySeq
    by_cases h : a.sequence ≤ b.sequence
    · simp [h]
    · simp only [h, if_false]
      exact (ih.cons b).trans (List.Perm.swap a b bs)

theorem sortBySeq_perm (l : List FileInfo) : (sortBySeq l).Perm l := by
  induction l with
  | nil => simp [sortBySeq]
  | cons a as_ ih => exact (insertBySeq_perm a (sortBySeq as_)).trans (ih.cons a)

theorem insertBySeq_sorted (a : FileInfo) (l : List FileInfo)
    (h : List.Pairwise (fun x y => x.sequence ≤ y.sequence) l) :
    List.Pairwise (fun x y => x.sequence ≤ y.sequence) (insertBySeq a l) := by
  induction l with
  | nil => simp [insertBySeq]
  | cons b bs ih =>
    unfold insertBySeq
    rw [List.pairwise_cons] at h
    obtain ⟨hb, hbs⟩ := h
    by_cases hab : a.sequence ≤ b.sequence
    · simp only [hab, if_true]
      refine List.Pairwise.cons ?_ (List.Pairwise.cons hb hbs)
      intro x hx
      rcases List.mem_cons.mp hx with rfl | hx
      · exact hab
      · exact le_trans hab (hb x hx)
    · simp only [hab, if_false]
      refine List.Pairwise.cons ?_ (ih hbs)
      intro x hx
      have hx' : x ∈ a :: bs := (insertBySeq_perm a bs).mem_iff.mp hx
      rcases List.mem_cons.mp hx' with rfl | hx'
      · exact le_of_lt (Nat.lt_of_not_le hab)
      · exact hb x hx'

theorem sortBySeq_sorted (l : List FileInfo) :
    List.Pairwise (fun x y => x.sequence ≤ y.sequence) (sortBySeq l) := by
  induction l with
  | nil => simp [sortBySeq]
  | cons a as_ ih => exact insertBySeq_sorted a (sortBySeq as_) ih

theorem sortBySeq_head_min {l : List FileInfo} {keep : FileInfo}
    {rest : List FileInfo} (h : sortBySeq l = keep :: rest) :
    ∀ f ∈ l, keep.sequence ≤ f.sequence := by
  intro f hf
  have hmem : f ∈ keep :: rest := by
    rw [← h]
    exact (sortBySeq_perm l).symm.subset hf
  rcases List.mem_cons.mp hmem with rfl | hmem
  · exact le_rfl
  · have hs := sortBySeq_sorted l
    rw [h, List.pairwise_cons] at hs
    exact hs.1 f hmem

theorem remove_events_shape (disk : List String)
    (reports : List DuplicateReport) :
    ∀ e ∈ (remove_duplicate_files disk reports).1, ∃ f, e = S2Event.deleteFile f := by
  induction reports generalizing disk with
  | nil => simp [remove_duplicate_files]
  | cons report rest ih =>
    unfold remove_duplicate_files
    by_cases h : report.remove_file ∈ disk
    · simp only [h, if_true, List.mem_cons]
      rintro e (rfl | he)
      · exact ⟨report.remove_file, rfl⟩
      · exact ih (disk.erase report.remove_file) e he
    · simp only [h, if_false]
      exact ih disk

theorem deleteFile_mem_remove_iff (disk : List String)
    (reports : List DuplicateReport) (hnodup : disk.Nodup) (f : String) :
    S2Event.deleteFile f ∈ (remove_duplicate_files disk reports).1 ↔
      (f ∈ reports.map fun report => report.remove_file) ∧ f ∈ disk := by
  induction reports generalizing disk with
  | nil => simp [remove_duplicate_files]
  | cons report rest ih =>
    unfold remove_duplicate_files
    by_cases h : report.remove_file ∈ disk
    · simp only [h, if_true, List.mem_cons, List.map_cons]
      rw [ih (disk.erase report.remove_file) (hnodup.erase _)]
      constructor
      · rintro (he | ⟨hm, hd⟩)
        · injection he with he
          refine ⟨Or.inl he, ?_⟩
          rw [he]
          exact h
        · exact ⟨Or.inr hm, (List.mem_of_mem_erase hd)⟩
      · rintro ⟨hm | hm, hd⟩
        · exact Or.inl (by rw [hm])
        · by_cases hfr : f = report.remove_file
          · exact Or.inl (by rw [hfr])
          · exact Or.inr ⟨hm, (hnodup.mem_erase_iff.mpr ⟨hfr, hd⟩)⟩
    · simp only [h, if_false, List.map_cons, List.mem_cons]
      rw [ih disk hnodup]
      constructor
      · rintro ⟨hm, hd⟩
        exact ⟨Or.inr hm, hd⟩
      · rintro ⟨hm | hm, hd⟩
        · exact absurd (hm ▸ hd) h
        · exact ⟨hm, hd⟩

/-- C3: the claim says S2 filename parsing is total and *silently drops*
(without panicking) every name with fewer than six underscore-separated
fields, a five-field name in particular. The code checks `parts.len() >= 5`
but then reads `parts[5]`, so a name with exactly five fields makes the
indexing panic instead of being dropped; names with at least six fields
behave as claimed (digit-free sequence fields are silently dropped). -/
theorem C3_parse_filename_panics_on_five_fields :
    parse_filename "a_b_c_d_L.csv" = .panicked ∧
    parse_filename "a_b_c_d_L_001.csv" = .ok (some ("a_b_c_d", "L", 1)) ∧
    parse_filename "a_b_c_d_L_xyz.csv" = .ok none ∧
    parse_filename "a_b_c.csv" = .ok none := by
  decide

end CsvDuplicateFuzzy

namespace CsvDuplicateFuzzy

/-- C4 (counterexample): the claim says two S2 runs over the same directory
listing produce identical audit CSVs with groups in directory-listing order.
The source iterates a `HashMap` whose iteration order is unspecified: for
the same four-file listing, the two key orders below are both permutations
of the group keys (so both are possible runs), yet they produce different
audit row orders. -/
theorem C4_counterexample_group_order_not_deterministic :
    file_groups ["a_b_c_d_L_1.csv", "a_b_c_d_L_2.csv",
        "a_b_c_d_R_1.csv", "a_b_c_d_R_2.csv"] =
      .ok [(("a_b_c_d", "L"), [⟨"a_b_c_d_L_1.csv", 1⟩, ⟨"a_b_c_d_L_2.csv", 2⟩]),
           (("a_b_c_d", "R"), [⟨"a_b_c_d_R_1.csv", 1⟩, ⟨"a_b_c_d_R_2.csv", 2⟩])] ∧
    List.Perm [("a_b_c_d", "L"), ("a_b_c_d", "R")]
      [("a_b_c_d", "L"), ("a_b_c_d", "R")] ∧
    List.Perm [("a_b_c_d", "R"), ("a_b_c_d", "L")]
      [("a_b_c_d", "L"), ("a_b_c_d", "R")] ∧
    find_duplicates ["a_b_c_d_L_1.csv", "a_b_c_d_L_2.csv",
        "a_b_c_d_R_1.csv", "a_b_c_d_R_2.csv"]
        [("a_b_c_d", "L"), ("a_b_c_d", "R")] ≠
      find_duplicates ["a_b_c_d_L_1.csv", "a_b_c_d_L_2.csv",
        "a_b_c_d_R_1.csv", "a_b_c_d_R_2.csv"]
        [("a_b_c_d", "R"), ("a_b_c_d", "L")] := by
  exact ⟨by decide, by decide, by decide, by decide⟩

/-- C4 (amended): given the same directory listing, the *content* of the S2
audit is deterministic up to group order - any two iteration orders of the
group map that are permutations of each other produce permutations of the
same audit rows - and within one group the removal rows appear in ascending
sequence order. Group blocks, however, appear in the `HashMap`'s unspecified
iteration order, not in directory-listing order, so byte-identical audit
CSVs across runs are not guaranteed. -/
theorem C4_audit_rows_deterministic_up_to_group_order
    (csv_files : List String) (o1 o2 : List (String × String))
    (h : o1.Perm o2) :
    (∀ r1 r2, find_duplicates csv_files o1 = .ok r1 →
        find_duplicates csv_files o2 = .ok r2 → r1.Perm r2) ∧
    (∀ files, List.Pairwise (fun x y => x.sequence ≤ y.sequence)
        (sortBySeq files)) ∧
    (∀ eye files keep rest, 1 < files.length → sortBySeq files = keep :: rest →
        group_reports eye files = rest.map fun remove_file =>
          ⟨keep.filename, remove_file.filename,
            reason_line keep.sequence remove_file.sequence eye⟩) := by
  refine ⟨?_, fun files => sortBySeq_sorted files, ?_⟩
  · intro r1 r2 h1 h2
    unfold find_duplicates at h1 h2
    cases hg : file_groups csv_files with
    | panicked => rw [hg] at h1; simp at h1
    | ok groups =>
      rw [hg] at h1 h2
      simp only [Panics.ok_bind, Panics.pure_eq, Panics.ok.injEq] at h1 h2
      rw [← h1, ← h2]
      exact h.flatMap_right _
  · intro eye files keep rest hlen hsort
    simp [group_reports, hsort, hlen]

/-- Witness for `C4_audit_rows_deterministic_up_to_group_order` at a
concrete listing and a pair of equal iteration orders. -/
theorem C4_audit_rows_deterministic_up_to_group_order_witness :
    List.Perm [("a_b_c_d", "L")] [("a_b_c_d", "L")] ∧
    (∀ r1 r2,
        find_duplicates ["a_b_c_d_L_1.csv", "a_b_c_d_L_2.csv"]
            [("a_b_c_d", "L")] = .ok r1 →
        find_duplicates ["a_b_c_d_L_1.csv", "a_b_c_d_L_2.csv"]
            [("a_b_c_d", "L")] = .ok r2 → r1.Perm r2) :=
  ⟨by decide,
    (C4_audit_rows_deterministic_up_to_group_order
      ["a_b_c_d_L_1.csv", "a_b_c_d_L_2.csv"]
      [("a_b_c_d", "L")] [("a_b_c_d", "L")] (by decide)).1⟩

/-- C8: in every S2 group with more than one parsed member the kept member
has the lowest sequence, every other member becomes an audit removal row
whose reason names both sequences and the eye, the set of deletion events is
exactly the set of recorded removal files (when they are on disk, as they
are for files that came from the listing), and the audit write precedes
every deletion in the effect trace of `main`. -/
theorem C8_keeper_audit_and_deletion
    (csv_files : List String) (order : List (String × String))
    (reports : List DuplicateReport)
    (hrep : find_duplicates csv_files order = .ok reports)
    (hne : reports ≠ [])
    (hnodup : csv_files.Nodup)
    (hondisk : ∀ report ∈ reports, report.remove_file ∈ csv_files) :
    (∀ eye files keep rest, 1 < files.length → sortBySeq files = keep :: rest →
        (∀ f ∈ files, keep.sequence ≤ f.sequence) ∧
        (keep :: rest).Perm files ∧
        group_reports eye files = rest.map fun remove_file =>
          ⟨keep.filename, remove_file.filename,
            reason_line keep.sequence remove_file.sequence eye⟩) ∧
    (∃ deletions,
        s2_main csv_files order = .ok (S2Event.writeAudit reports :: deletions) ∧
        (∀ e ∈ deletions, ∃ f, e = S2Event.deleteFile f) ∧
        (∀ f, S2Event.deleteFile f ∈ deletions ↔
            f ∈ reports.map fun report => report.remove_file)) := by
  constructor
  · intro eye files keep rest hlen hsort
    refine ⟨sortBySeq_head_min hsort, ?_, ?_⟩
    · rw [← hsort]
      exact sortBySeq_perm files
    · simp [group_reports, hsort, hlen]
  · refine ⟨(remove_duplicate_files csv_files reports).1, ?_, ?_, ?_⟩
    · unfold s2_main
      rw [hrep]
      simp only [Panics.ok_bind]
      rw [if_neg (by simpa [List.isEmpty_iff] using hne)]
      rfl
    · exact remove_events_shape csv_files reports
    · intro f
      rw [deleteFile_mem_remove_iff csv_files reports hnodup f]
      constructor
      · exact fun hf => hf.1
      · intro hf
        refine ⟨hf, ?_⟩
        obtain ⟨report, hr, rfl⟩ := List.mem_map.mp hf
        exact hondisk report hr

/-- Witness for `C8_keeper_audit_and_deletion` at a concrete two-file
group. -/
theorem C8_keeper_audit_and_deletion_witness :
    find_duplicates ["a_b_c_d_L_1.csv", "a_b_c_d_L_2.csv"] [("a_b_c_d", "L")]
        = .ok [⟨"a_b_c_d_L_1.csv", "a_b_c_d_L_2.csv",
            "Keep sequence 1 (lower) vs 2 (higher) for eye L"⟩] ∧
    (["a_b_c_d_L_1.csv", "a_b_c_d_L_2.csv"] : List String).Nodup ∧
    (∃ deletions,
        s2_main ["a_b_c_d_L_1.csv", "a_b_c_d_L_2.csv"] [("a_b_c_d", "L")] =
          .ok (S2Event.writeAudit [⟨"a_b_c_d_L_1.csv", "a_b_c_d_L_2.csv",
            "Keep sequence 1 (lower) vs 2 (higher) for eye L"⟩] :: deletions)) := by
  refine ⟨by decide, by decide, ?_⟩
  obtain ⟨d, hd, -, -⟩ :=
    (C8_keeper_audit_and_deletion ["a_b_c_d_L_1.csv", "a_b_c_d_L_2.csv"]
      [("a_b_c_d", "L")]
      [⟨"a_b_c_d_L_1.csv", "a_b_c_d_L_2.csv",
        "Keep sequence 1 (lower) vs 2 (higher) for eye L"⟩]
      (by decide) (by decide) (by decide) (by decide)).2
  exact ⟨d, hd⟩

end CsvDuplicateFuzzy

namespace CsvTo8

theorem radial_pred_eq_true_iff {col : ℕ} {k : ℤ} {record : List String} :
    radial_pred col k record = true ↔
      ∃ v, record[col]? = some v ∧ parse_i32 v = some k := by
  unfold radial_pred
  cases hv : record[col]? with
  | none => simp
  | some v =>
    cases hp : parse_i32 v with
    | none => simp [hp]
    | some index => simp [hp, beq_iff_eq]

theorem in_targets_eq_true_iff {col : ℕ} {targets : List ℤ} {record : List String} :
    in_targets col targets record = true ↔
      ∃ v k, record[col]? = some v ∧ parse_i32 v = some k ∧ k ∈ targets := by
  unfold in_targets
  cases hv : record[col]? with
  | none => simp
  | some v =>
    cases hp : parse_i32 v with
    | none => simp [hp]
    | some index => simp [hp, List.contains_iff_exists_mem_beq, beq_iff_eq]

theorem route_records_eq (radial_index_col : ℕ) (records : List (List String)) :
    ∀ writers : List (ℤ × List (List String)),
      route_records radial_index_col writers records =
        writers.map fun w =>
          (w.1, w.2 ++ records.filter (radial_pred radial_index_col w.1)) := by
  induction records with
  | nil =>
    intro writers
    simp [route_records]
  | cons record rest ih =>
    intro writers
    unfold route_records
    split
    next value hv =>
      split
      next index hp =>
        split
        next hc =>
          rw [ih (writer_insert writers index record)]
          unfold writer_insert
          rw [List.map_map]
          apply List.map_congr_left
          intro w _
          by_cases hk : w.1 = index
          · have hpred : radial_pred radial_index_col w.1 record = true := by
              simp [radial_pred, hv, hp, hk]
            rw [hk] at hpred
            simp [Function.comp, hk, List.filter_cons, hpred, List.append_assoc]
          · have hpred : radial_pred radial_index_col w.1 record = false := by
              simp only [radial_pred, hv, hp]
              simp [beq_iff_eq]
              exact fun h => absurd h.symm hk
            simp [Function.comp, hk, List.filter_cons, hpred]
        next hc =>
          rw [ih writers]
          apply List.map_congr_left
          intro w hw
          have hk : w.1 ≠ index := by
            intro hk
            apply hc
            rw [List.contains_iff_exists_mem_beq]
            exact ⟨w.1, List.mem_map_of_mem _ hw, by simp [hk]⟩
          have hpred : radial_pred radial_index_col w.1 record = false := by
            simp only [radial_pred, hv, hp]
            simp [beq_iff_eq]
            exact fun h => absurd h.symm hk
          simp [List.filter_cons, hpred]
      next hp =>
        rw [ih writers]
        apply List.map_congr_left
        intro w _
        have hpred : radial_pred radial_index_col w.1 record = false := by
          simp [radial_pred, hv, hp]
        simp [List.filter_cons, hpred]
    next hv =>
      rw [ih writers]
      apply List.map_congr_left
      intro w _
      have hpred : radial_pred radial_index_col w.1 record = false := by
        simp [radial_pred, hv]
      simp [List.filter_cons, hpred]

theorem filter_or_perm (l : List α) (p q : α → Bool)
    (h : ∀ a, ¬(p a = true ∧ q a = true)) :
    (l.filter fun a => p a || q a).Perm (l.filter p ++ l.filter q) := by
  induction l with
  | nil => simp
  | cons a t ih =>
    by_cases hp : p a = true
    · have hq : ¬ q a = true := fun hq => h a ⟨hp, hq⟩
      simp only [List.filter_cons, hp, hq, Bool.true_or, if_true, if_false,
        cond_true, cond_false]
      simpa using ih.cons a
    · by_cases hq : q a = true
      · simp only [List.filter_cons, hp, hq, Bool.false_or, if_true, if_false]
        simp only [Bool.false_eq_true, if_false]
        exact (ih.cons a).trans List.perm_middle.symm
      · simp only [List.filter_cons, hp, hq, Bool.false_or]
        simp only [Bool.false_eq_true, if_false]
        exact ih

theorem in_targets_nil (col : ℕ) (record : List String) :
    in_targets col [] record = false := by
  unfold in_targets
  cases hv : record[col]? with
  | none => simp
  | some v =>
    cases hp : parse_i32 v with
    | none => simp [hp]
    | some index => simp [hp]

theorem in_targets_cons (col : ℕ) (t : ℤ) (ts : List ℤ) (record : List String) :
    in_targets col (t :: ts) record =
      (radial_pred col t record || in_targets col ts record) := by
  unfold in_targets radial_pred
  cases hv : record[col]? with
  | none => simp
  | some v =>
    cases hp : parse_i32 v with
    | none => simp [hp]
    | some index =>
      by_cases h : index = t <;> simp [hp, List.contains_cons, h]

theorem flatMap_filter_perm (col : ℕ) (records : List (List String)) :
    ∀ targets : List ℤ, targets.Nodup →
      (targets.flatMap fun k => records.filter (radial_pred col k)).Perm
        (records.filter (in_targets col targets)) := by
  intro targets
  induction targets with
  | nil =>
    intro _
    simp [in_targets_nil]
  | cons t ts ih =>
    intro hnodup
    rw [List.nodup_cons] at hnodup
    have hdisj : ∀ rec, ¬(radial_pred col t rec = true ∧ in_targets col ts rec = true) := by
      rintro rec ⟨h1, h2⟩
      obtain ⟨v, hv, hp⟩ := radial_pred_eq_true_iff.mp h1
      obtain ⟨v', k, hv', hp', hk⟩ := in_targets_eq_true_iff.mp h2
      rw [hv] at hv'
      injection hv' with hv'
      rw [← hv'] at hp'
      rw [hp] at hp'
      injection hp' with hp'
      exact hnodup.1 (hp' ▸ hk)
    have heq : ((t :: ts).flatMap fun k => records.filter (radial_pred col k)) =
        records.filter (radial_pred col t) ++
          ts.flatMap fun k => records.filter (radial_pred col k) := by
      simp [List.flatMap_cons]
    have hperm1 : (records.filter (radial_pred col t) ++
          (ts.flatMap fun k => records.filter (radial_pred col k))).Perm
        (records.filter (radial_pred col t) ++ records.filter (in_targets col ts)) :=
      List.Perm.append_left _ (ih hnodup.2)
    have hperm2 : (records.filter fun rec =>
          radial_pred col t rec || in_targets col ts rec).Perm
        (records.filter (radial_pred col t) ++ records.filter (in_targets col ts)) :=
      filter_or_perm records _ _ hdisj
    have hfin : (records.filter fun rec =>
          radial_pred col t rec || in_targets col ts rec) =
        records.filter (in_targets col (t :: ts)) :=
      List.filter_congr fun rec _ => (in_targets_cons col t ts rec).symm
    rw [heq, ← hfin]
    exact hperm1.trans hperm2.symm

end CsvTo8

namespace CsvTo8

/-- C9: S4 split mode routes every data row whose `Radial_Index` parses to
an integer in the target set to exactly the one output `radial_<k>` with `k`
that integer, preserving input order (each output is an in-order sublist of
the input), and drops every other row; the concatenation of all outputs is a
permutation of the input rows restricted to rows whose `Radial_Index` is in
the target set, and no row satisfies the routing test for two distinct
targets. -/
theorem C9_split_disjoint_partition (headers : List String)
    (records : List (List String)) (targets : List ℤ) (col : ℕ)
    (hcol : headers.findIdx? (fun header => header == "Radial_Index") = some col)
    (hnodup : targets.Nodup) :
    process_file headers records targets =
      .ok (targets.map fun k => (k, records.filter (radial_pred col k))) ∧
    (∀ k, (records.filter (radial_pred col k)).Sublist records) ∧
    ((targets.map fun k => (k, records.filter (radial_pred col k))).flatMap
        (fun output => output.2)).Perm
      (records.filter (in_targets col targets)) ∧
    (∀ record k1 k2, radial_pred col k1 record = true →
        radial_pred col k2 record = true → k1 = k2) := by
  refine ⟨?_, ?_, ?_, ?_⟩
  · unfold process_file
    rw [hcol]
    show Except.ok (route_records col (targets.map fun index => (index, [])) records) = _
    rw [route_records_eq]
    rw [List.map_map]
    simp [Function.comp]
  · intro k
    exact List.filter_sublist records
  · have hmap : ((targets.map fun k => (k, records.filter (radial_pred col k))).flatMap
        fun output => output.2) =
          targets.flatMap fun k => records.filter (radial_pred col k) := by
      clear hnodup
      induction targets with
      | nil => simp
      | cons t ts ih => simp [List.flatMap_cons, ih]
    rw [hmap]
    exact flatMap_filter_perm col records targets hnodup
  · intro record k1 k2 h1 h2
    obtain ⟨v, hv, hp⟩ := radial_pred_eq_true_iff.mp h1
    obtain ⟨v', hv', hp'⟩ := radial_pred_eq_true_iff.mp h2
    rw [hv] at hv'
    injection hv' with hv'
    rw [← hv'] at hp'
    rw [hp] at hp'
    exact Option.some.inj hp'

/-- Witness for `C9_split_disjoint_partition` at a concrete header, four
data rows and the target set `{1, 2}`. -/
theorem C9_split_disjoint_partition_witness :
    (["Radial_Index", "X"] : List String).findIdx?
        (fun header => header == "Radial_Index") = some 0 ∧
    ([1, 2] : List ℤ).Nodup ∧
    process_file ["Radial_Index", "X"] [["1", "a"], ["2", "b"], ["3", "c"], ["1", "d"]]
        [1, 2] =
      .ok [(1, [["1", "a"], ["1", "d"]]), (2, [["2", "b"]])] := by
  refine ⟨by decide, by decide, ?_⟩
  have h := (C9_split_disjoint_partition ["Radial_Index", "X"]
    [["1", "a"], ["2", "b"], ["3", "c"], ["1", "d"]] [1, 2] 0
    (by decide) (by decide)).1
  rw [h]
  exact congrArg Except.ok (by decide)

end CsvTo8

namespace ExtractCsvDataMulti

theorem collect_rows_start_irrelevant (rows : List (List String)) :
    ∀ (e s s' i : ℕ), s ≤ i → s' ≤ i →
      collect_rows s e rows i = collect_rows s' e rows i := by
  induction rows with
  | nil => intro e s s' i _ _; rfl
  | cons row rest ih =>
    intro e s s' i hs hs'
    unfold collect_rows
    by_cases he : e ≤ i
    · simp [he]
    · simp only [he, if_false, hs, hs', if_true]
      rw [ih e s s' (i + 1) (le_trans hs (Nat.le_succ i))
        (le_trans hs' (Nat.le_succ i))]

theorem collect_rows_eq (rows : List (List String)) :
    ∀ (start count i : ℕ),
      collect_rows (i + start) (i + start + count) rows i =
        ((((rows.drop start).take count).filter
            (fun r => !(r.length < COLS_TO_KEEP : Bool))).map
              (fun r => r.take COLS_TO_KEEP),
         ((rows.drop start).take count).filter
            (fun r => (r.length < COLS_TO_KEEP : Bool))) := by
  induction rows with
  | nil => intro start count i; simp [collect_rows]
  | cons row rest ih =>
    intro start count i
    unfold collect_rows
    cases start with
    | zero =>
      cases count with
      | zero => simp
      | succ c =>
        have hend : ¬ (i + 0 + (c + 1) ≤ i) := by omega
        have hstart : i + 0 ≤ i := by omega
        simp only [hend, if_false, hstart, if_true]
        have hrw : collect_rows (i + 0) (i + 0 + (c + 1)) rest (i + 1) =
            collect_rows ((i + 1) + 0) ((i + 1) + 0 + c) rest (i + 1) := by
          have he : i + 0 + (c + 1) = (i + 1) + 0 + c := by omega
          rw [he]
          exact collect_rows_start_irrelevant rest _ _ _ _ (by omega) (by omega)
        rw [hrw, ih 0 c (i + 1)]
        by_cases hlen : row.length < COLS_TO_KEEP
        · simp [hlen, List.filter_cons]
        · simp [hlen, List.filter_cons]
    | succ s =>
      have hend : ¬ (i + (s + 1) + count ≤ i) := by omega
      have hstart : ¬ (i + (s + 1) ≤ i) := by omega
      simp only [hend, if_false, hstart, if_true]
      have he : i + (s + 1) = (i + 1) + s := by omega
      rw [he]
      have he2 : (i + 1) + s + count = (i + 1) + s + count := rfl
      rw [ih s count (i + 1)]
      simp

theorem find_marker_first (rows : List (List String)) (marker : String)
    (m : ℕ) (h : find_marker_row_index rows marker = .ok m) :
    m < rows.length ∧
    (∃ row, rows.get? m = some row ∧ marker_pred marker row = true) ∧
    (∀ j, j < m → ∀ rowj, rows.get? j = some rowj →
      marker_pred marker rowj = false) := by
  unfold find_marker_row_index at h
  cases hf : rows.findIdx? (marker_pred marker) with
  | none => rw [hf] at h; cases h
  | some i =>
    rw [hf] at h
    injection h with h
    subst h
    obtain ⟨hlt, hidx⟩ := List.findIdx?_eq_some_iff_findIdx_eq.mp hf
    subst hidx
    refine ⟨hlt, ?_, ?_⟩
    · refine ⟨rows[rows.findIdx (marker_pred marker)], ?_, ?_⟩
      · rw [List.get?_eq_getElem?, List.getElem?_eq_getElem hlt]
      · exact List.findIdx_getElem
    · intro j hj rowj hrowj
      have hj' : j < rows.length := lt_trans hj hlt
      rw [List.get?_eq_getElem?, List.getElem?_eq_getElem hj'] at hrowj
      injection hrowj with hrowj
      rw [← hrowj]
      exact List.not_of_lt_findIdx hj

end ExtractCsvDataMulti

theorem except_ok_bind {ε α β : Type} (a : α) (f : α → Except ε β) :
    (Except.ok a >>= f) = f a := rfl

namespace ExtractCsvDataMulti

/-- C7: with `m` the zero-based index of the first row whose trimmed first
cell equals the tag, exactly the rows with index `m + skip ≤ i < m + skip +
256` are considered; a considered row with fewer than 32 columns is skipped
and recorded as a warning, every other considered row contributes exactly
its first 32 cells verbatim; the unit errors when zero rows are written and
raises the shortfall warning exactly when fewer (or more, impossible here)
than 256 are - so 256 qualifying rows are fully copied, 255 yield 255
written rows plus a warning, and a 257th candidate row beyond the window is
ignored (the considered window never exceeds 256 rows). -/
theorem C7_window_truncation_and_counts (rows : List (List String))
    (marker : String) (rows_to_skip m : ℕ)
    (hfind : find_marker_row_index rows marker = .ok m) :
    (m < rows.length ∧
      (∃ row, rows.get? m = some row ∧ marker_pred marker row = true) ∧
      (∀ j, j < m → ∀ rowj, rows.get? j = some rowj →
        marker_pred marker rowj = false)) ∧
    (process_csv_for_marker rows marker rows_to_skip =
      (if (((rows.drop (m + rows_to_skip)).take 256).filter
            (fun r => !(decide (r.length < 32)))).length = 0 then
        Except.error ("No rows written for marker " ++ marker)
      else Except.ok
        ⟨((((rows.drop (m + rows_to_skip)).take 256).filter
            (fun r => !(decide (r.length < 32)))).map fun r => r.take 32),
         (((rows.drop (m + rows_to_skip)).take 256).filter
            (fun r => decide (r.length < 32))),
         ((((rows.drop (m + rows_to_skip)).take 256).filter
            (fun r => !(decide (r.length < 32)))).length != 256)⟩)) ∧
    (∀ r ∈ (((rows.drop (m + rows_to_skip)).take 256).filter
        (fun r => !(decide (r.length < 32)))).map (fun r => r.take 32),
      r.length = 32) ∧
    ((rows.drop (m + rows_to_skip)).take 256).length ≤ 256 := by
  have hcollect := collect_rows_eq rows (m + rows_to_skip) 256 0
  simp only [Nat.zero_add] at hcollect
  refine ⟨find_marker_first rows marker m hfind, ?_, ?_, ?_⟩
  · unfold process_csv_for_marker
    rw [hfind, except_ok_bind]
    show (if _ then _ else _) = _
    rw [show (ROWS_TO_KEEP : ℕ) = 256 from rfl]
    rw [hcollect]
    simp [List.length_map, show (COLS_TO_KEEP : ℕ) = 32 from rfl]
  · intro r hr
    obtain ⟨r0, hr0, rfl⟩ := List.mem_map.mp hr
    have hlen := List.of_mem_filter hr0
    simp only [Bool.not_eq_true', decide_eq_false_iff_not, Nat.not_lt] at hlen
    rw [List.length_take]
    omega
  · exact List.length_take_le 256 _

/-- Witness for `C7_window_truncation_and_counts`: a one-row file containing
only the tag; the window after the skip is empty, so the unit errors. -/
theorem C7_window_truncation_and_counts_witness :
    find_marker_row_index [["[Pachymetry]"]] "[Pachymetry]" = .ok 0 ∧
    process_csv_for_marker [["[Pachymetry]"]] "[Pachymetry]" 3 =
      Except.error ("No rows written for marker " ++ "[Pachymetry]") := by
  refine ⟨rfl, ?_⟩
  have h := (C7_window_truncation_and_counts [["[Pachymetry]"]] "[Pachymetry]"
    3 0 rfl).2.1
  rw [h]
  rfl

/-- C10: once the tag is found, the output file is created (truncating any
previous content) before any qualifying row is scanned: the effect trace
starts with `createOutput` followed only by row writes. When zero qualifying
rows exist the unit reports an error, yet the trace is exactly
`[createOutput]` and contains no deletion - the created empty output CSV
remains on disk, so the error path does not leave the output directory
unchanged. -/
theorem C10_error_path_leaves_empty_output (rows : List (List String))
    (marker : String) (rows_to_skip m : ℕ)
    (hfind : find_marker_row_index rows marker = .ok m) :
    ∃ written,
      process_csv_for_marker_trace rows marker rows_to_skip =
        (S1Event.createOutput :: written.map S1Event.writeRow,
          if written.length = 0 then
            Except.error ("No rows written for marker " ++ marker)
          else Except.ok written.length) ∧
      (written = [] →
        process_csv_for_marker_trace rows marker rows_to_skip =
          ([S1Event.createOutput],
            Except.error ("No rows written for marker " ++ marker))) := by
  have htrace : process_csv_for_marker_trace rows marker rows_to_skip =
      (S1Event.createOutput :: ((collect_rows (m + rows_to_skip)
          (m + rows_to_skip + ROWS_TO_KEEP) rows 0).1).map S1Event.writeRow,
        if ((collect_rows (m + rows_to_skip)
            (m + rows_to_skip + ROWS_TO_KEEP) rows 0).1).length = 0 then
          Except.error ("No rows written for marker " ++ marker)
        else Except.ok ((collect_rows (m + rows_to_skip)
            (m + rows_to_skip + ROWS_TO_KEEP) rows 0).1).length) := by
    unfold process_csv_for_marker_trace
    rw [hfind]
  refine ⟨(collect_rows (m + rows_to_skip) (m + rows_to_skip + ROWS_TO_KEEP)
    rows 0).1, htrace, ?_⟩
  intro hw
  rw [htrace, hw]
  rfl

/-- Witness for `C10_error_path_leaves_empty_output`: the same one-row file;
the trace is exactly the file creation and the result is the error. -/
theorem C10_error_path_leaves_empty_output_witness :
    find_marker_row_index [["[Pachymetry]"]] "[Pachymetry]" = .ok 0 ∧
    process_csv_for_marker_trace [["[Pachymetry]"]] "[Pachymetry]" 3 =
      ([S1Event.createOutput],
        Except.error ("No rows written for marker " ++ "[Pachymetry]")) := by
  refine ⟨rfl, ?_⟩
  obtain ⟨written, h1, h2⟩ := C10_error_path_leaves_empty_output
    [["[Pachymetry]"]] "[Pachymetry]" 3 0 rfl
  have hw : written = [] := by
    have h3 : (process_csv_for_marker_trace [["[Pachymetry]"]]
        "[Pachymetry]" 3).1 = S1Event.createOutput :: written.map S1Event.writeRow := by
      rw [h1]
    have h4 : (process_csv_for_marker_trace [["[Pachymetry]"]]
        "[Pachymetry]" 3).1 = [S1Event.createOutput] := rfl
    rw [h4] at h3
    cases written with
    | nil => rfl
    | cons a b => simp at h3
  exact h2 hw

end ExtractCsvDataMulti

namespace GridFixMulti

theorem foldl_add_comp (f : ℝ → ℝ) :
    ∀ (l : List ℝ) (b : ℝ),
      l.foldl (fun acc x => acc + f x) b = b + (l.map f).sum := by
  intro l
  induction l with
  | nil => intro b; simp
  | cons x xs ih =>
    intro b
    simp only [List.foldl_cons, List.map_cons, List.sum_cons]
    rw [ih (b + f x)]
    ring

theorem sum_map_div (f : ℝ → ℝ) (c : ℝ) :
    ∀ l : List ℝ, (l.map fun x => f x / c).sum = (l.map f).sum / c := by
  intro l
  induction l with
  | nil => simp
  | cons x xs ih =>
    simp only [List.map_cons, List.sum_cons, ih]
    ring

theorem calculate_stats_mean (values : List ℝ) (h : ¬ values.isEmpty) :
    (calculate_stats values).mean = values.sum / values.length := by
  unfold calculate_stats
  rw [if_neg h]
  show values.foldl (fun acc x => acc + x / (values.length : ℝ)) 0 = _
  rw [foldl_add_comp (fun x => x / (values.length : ℝ)) values 0]
  have hdiv := sum_map_div (fun x => x) (values.length : ℝ) values
  simp only at hdiv
  rw [hdiv]
  simp

theorem calculate_stats_std_dev (values : List ℝ) (h : 1 < values.length) :
    (calculate_stats values).std_dev =
      Real.sqrt ((values.map fun x =>
          (x - values.sum / values.length) * (x - values.sum / values.length)).sum
        / ((values.length : ℝ) - 1)) := by
  have hne : ¬ values.isEmpty := by
    cases values with
    | nil => simp at h
    | cons a l => simp
  have hmean : (calculate_stats values).mean = values.sum / values.length :=
    calculate_stats_mean values hne
  unfold calculate_stats at hmean ⊢
  rw [if_neg hne] at hmean ⊢
  simp only at hmean ⊢
  rw [if_pos h]
  rw [foldl_add_comp
    (fun x => (x - values.foldl (fun acc x => acc + x / (values.length : ℝ)) 0) *
      (x - values.foldl (fun acc x => acc + x / (values.length : ℝ)) 0) /
        ((values.length : ℝ) - 1)) values 0]
  rw [sum_map_div (fun x => (x - values.foldl (fun acc x => acc + x / (values.length : ℝ)) 0) *
      (x - values.foldl (fun acc x => acc + x / (values.length : ℝ)) 0))
    ((values.length : ℝ) - 1) values]
  rw [show values.foldl (fun acc x => acc + x / (values.length : ℝ)) 0 =
      values.sum / values.length from hmean]
  simp

theorem scale_value_eq (value : ℝ) (stats : Stats) :
    scale_value value stats =
      if stats.std_dev ≤ 0 then 0 else (value - stats.mean) / stats.std_dev := rfl

end GridFixMulti

namespace GridFixMulti

theorem makeRow_spec (aa ap ea ep ak ha hp pa : List ℝ)
    (meridian radial_index : ℕ) (hm : meridian < 256) (hr : radial_index < 32)
    (hlen : ∀ d ∈ [aa, ap, ea, ep, ak, ha, hp, pa], 8192 ≤ d.length) :
    makeRow (mkParameters aa ap ea ep ak ha hp pa)
        (mkStatsMap (mkParameters aa ap ea ep ak ha hp pa)) meridian radial_index =
      .ok { geometry := gridGeometry meridian radial_index,
            alpha_angle :=
              if (hp.getD (meridian * 32 + radial_index) 0 -
                  ha.getD (meridian * 32 + radial_index) 0) ≠ 0 then
                some (pa.getD (meridian * 32 + radial_index) 0 /
                  (hp.getD (meridian * 32 + radial_index) 0 -
                   ha.getD (meridian * 32 + radial_index) 0))
              else none,
            cells := (mkParameters aa ap ea ep ak ha hp pa).map fun p =>
              (p.2.getD (meridian * 32 + radial_index) 0,
               scale_value (p.2.getD (meridian * 32 + radial_index) 0)
                 (calculate_stats p.2)) } := by
  simp only [List.forall_mem_cons, List.forall_mem_nil, and_true] at hlen
  obtain ⟨h1, h2, h3, h4, h5, h6, h7, h8⟩ := hlen
  have hidx : meridian * 32 + radial_index < 8192 := by omega
  have g1 := rustIndex_ok_of_lt (d := (0 : ℝ))
    (l := aa) (i := meridian * 32 + radial_index) (by omega)
  have g2 := rustIndex_ok_of_lt (d := (0 : ℝ))
    (l := ap) (i := meridian * 32 + radial_index) (by omega)
  have g3 := rustIndex_ok_of_lt (d := (0 : ℝ))
    (l := ea) (i := meridian * 32 + radial_index) (by omega)
  have g4 := rustIndex_ok_of_lt (d := (0 : ℝ))
    (l := ep) (i := meridian * 32 + radial_index) (by omega)
  have g5 := rustIndex_ok_of_lt (d := (0 : ℝ))
    (l := ak) (i := meridian * 32 + radial_index) (by omega)
  have g6 := rustIndex_ok_of_lt (d := (0 : ℝ))
    (l := ha) (i := meridian * 32 + radial_index) (by omega)
  have g7 := rustIndex_ok_of_lt (d := (0 : ℝ))
    (l := hp) (i := meridian * 32 + radial_index) (by omega)
  have g8 := rustIndex_ok_of_lt (d := (0 : ℝ))
    (l := pa) (i := meridian * 32 + radial_index) (by omega)
  simp only [makeRow, lookup_param_cell, param_cells, mkParameters, mkStatsMap,
    show (num_radials : ℕ) = 32 from rfl, List.map_cons, List.map_nil,
    List.find?, g1, g2, g3, g4, g5, g6, g7, g8,
    Panics.ok_bind, Panics.pure_eq]
  simp [g1, g2, g3, g4, g5, g6, g7, g8]

end GridFixMulti

namespace GridFixMulti

theorem collectResults_map_ok {α β : Type} {f : α → Panics β} :
    ∀ {l : List α}, (∀ a ∈ l, ∃ b, f a = .ok b) →
      ∃ xs, collectResults (l.map f) = .ok xs ∧
        List.Forall₂ (fun a b => f a = .ok b) l xs := by
  intro l
  induction l with
  | nil => intro _; exact ⟨[], rfl, List.Forall₂.nil⟩
  | cons a l ih =>
    intro h
    obtain ⟨b, hb⟩ := h a (List.mem_cons_self a l)
    obtain ⟨xs, hxs, hall⟩ := ih fun a' ha' => h a' (List.mem_cons_of_mem a ha')
    refine ⟨b :: xs, ?_, List.Forall₂.cons hb hall⟩
    simp only [List.map_cons, collectResults, hb, hxs, Panics.ok_bind,
      Panics.pure_eq]

theorem collectResults_panicked_of_mem {α : Type} :
    ∀ {l : List (Panics α)}, Panics.panicked ∈ l →
      collectResults l = .panicked := by
  intro l
  induction l with
  | nil => intro h; cases h
  | cons x xs ih =>
    intro h
    rcases List.mem_cons.mp h with heq | hmem
    · rw [← heq]
      rfl
    · cases x with
      | panicked => rfl
      | ok a =>
        simp only [collectResults, Panics.ok_bind, ih hmem, Panics.panicked_bind]

theorem forall₂_map_eq {α β γ : Type} {R : α → β → Prop} {k : β → γ} {g : α → γ} :
    ∀ {l : List α} {xs : List β}, List.Forall₂ R l xs →
      (∀ a ∈ l, ∀ b, R a b → k b = g a) → xs.map k = l.map g := by
  intro l xs h
  induction h with
  | nil => intro _; rfl
  | cons hr _ ih =>
    intro hk
    simp only [List.map_cons]
    rw [hk _ (List.mem_cons_self _ _) _ hr,
      ih fun a ha b hab => hk a (List.mem_cons_of_mem _ ha) b hab]

theorem row_jobs_eq_map (parameters : List (String × List ℝ))
    (stats_map : List (String × Stats)) :
    row_jobs parameters stats_map =
      ((List.range num_meridians).flatMap fun meridian =>
        (List.range num_radials).map fun radial_index =>
          (meridian, radial_index)).map fun c =>
        makeRow parameters stats_map c.1 c.2 := by
  unfold row_jobs
  rw [List.map_flatMap]
  simp [List.map_map, Function.comp_def]

theorem rowIndexPairs_eq_map :
    rowIndexPairs =
      ((List.range num_meridians).flatMap fun meridian =>
        (List.range num_radials).map fun radial_index =>
          (meridian, radial_index)).map fun c => (c.1 + 1, c.2 + 1) := by
  unfold rowIndexPairs
  rw [List.map_flatMap]
  simp [List.map_map, Function.comp_def]

theorem coords_mem {c : ℕ × ℕ}
    (h : c ∈ (List.range num_meridians).flatMap fun meridian =>
      (List.range num_radials).map fun radial_index => (meridian, radial_index)) :
    c.1 < 256 ∧ c.2 < 32 := by
  obtain ⟨m, hm, hc⟩ := List.mem_flatMap.mp h
  obtain ⟨r, hr, rfl⟩ := List.mem_map.mp hc
  rw [List.mem_range] at hm hr
  exact ⟨hm, hr⟩

theorem rowIndexPairs_length : rowIndexPairs.length = 8192 := by
  unfold rowIndexPairs
  rw [List.length_flatMap]
  have hmap : (List.map
      (List.length ∘ fun meridian =>
        List.map (fun radial_index => (meridian + 1, radial_index + 1))
          (List.range num_radials))
      (List.range num_meridians)) =
      List.map (fun _ => 32) (List.range num_meridians) := by
    apply List.map_congr_left
    intro m _
    simp [num_radials]
  rw [hmap, List.map_const', List.sum_replicate, List.length_range,
    smul_eq_mul]
  rfl

theorem rowIndexPairs_pairwise : List.Pairwise lexLt rowIndexPairs := by
  unfold rowIndexPairs
  rw [List.pairwise_flatMap]
  constructor
  · intro m _
    refine List.Pairwise.map _ ?_ (List.pairwise_lt_range num_radials)
    intro a b hab
    exact Or.inr ⟨rfl, by omega⟩
  · refine (List.pairwise_lt_range num_meridians).imp ?_
    intro m1 m2 h12 x hx y hy
    obtain ⟨r1, _, rfl⟩ := List.mem_map.mp hx
    obtain ⟨r2, _, rfl⟩ := List.mem_map.mp hy
    exact Or.inl (by omega)

theorem process_rows_ok (aa ap ea ep ak ha hp pa : List ℝ)
    (hlen : ∀ d ∈ [aa, ap, ea, ep, ak, ha, hp, pa], 8192 ≤ d.length) :
    ∃ rows,
      process_rows (mkParameters aa ap ea ep ak ha hp pa)
          (mkStatsMap (mkParameters aa ap ea ep ak ha hp pa)) = .ok rows ∧
      rows.map (fun row => (row.geometry.meridian_index,
        row.geometry.radial_index)) = rowIndexPairs ∧
      rows.length = 8192 := by
  set P := mkParameters aa ap ea ep ak ha hp pa with hP
  set S := mkStatsMap P with hS
  have hjobs : ∀ c ∈ (List.range num_meridians).flatMap fun meridian =>
      (List.range num_radials).map fun radial_index => (meridian, radial_index),
      ∃ b, makeRow P S c.1 c.2 = .ok b := by
    intro c hc
    obtain ⟨hc1, hc2⟩ := coords_mem hc
    exact ⟨_, makeRow_spec aa ap ea ep ak ha hp pa c.1 c.2 hc1 hc2 hlen⟩
  obtain ⟨rows, hcollect, hall⟩ := collectResults_map_ok hjobs
  have hkeys : rows.map (fun row => (row.geometry.meridian_index,
      row.geometry.radial_index)) =
      ((List.range num_meridians).flatMap fun meridian =>
        (List.range num_radials).map fun radial_index =>
          (meridian, radial_index)).map fun c => (c.1 + 1, c.2 + 1) := by
    refine forall₂_map_eq hall ?_
    intro c hc b hcb
    obtain ⟨hc1, hc2⟩ := coords_mem hc
    rw [makeRow_spec aa ap ea ep ak ha hp pa c.1 c.2 hc1 hc2 hlen] at hcb
    injection hcb with hcb
    rw [← hcb]
    rfl
  refine ⟨rows, ?_, ?_, ?_⟩
  · rw [process_rows, row_jobs_eq_map, hcollect]
  · rw [hkeys, ← rowIndexPairs_eq_map]
  · have := congrArg List.length hkeys
    rw [List.length_map, List.length_map, ← List.length_map _
      (fun c : ℕ × ℕ => (c.1 + 1, c.2 + 1)), ← rowIndexPairs_eq_map,
      rowIndexPairs_length] at this
    exact this

end GridFixMulti

namespace GridFixMulti

theorem mem_eight {α : Type} (z : α) {d : α}
    (hd : d ∈ [z, z, z, z, z, z, z, z]) : d = z := by
  rcases List.mem_cons.mp hd with rfl | hd
  · rfl
  · rcases List.mem_cons.mp hd with rfl | hd
    · rfl
    · rcases List.mem_cons.mp hd with rfl | hd
      · rfl
      · rcases List.mem_cons.mp hd with rfl | hd
        · rfl
        · rcases List.mem_cons.mp hd with rfl | hd
          · rfl
          · rcases List.mem_cons.mp hd with rfl | hd
            · rfl
            · rcases List.mem_cons.mp hd with rfl | hd
              · rfl
              · rcases List.mem_cons.mp hd with rfl | hd
                · rfl
                · cases hd

theorem zeros_hlen :
    ∀ d ∈ [List.replicate 8192 (0:ℝ), List.replicate 8192 (0:ℝ),
      List.replicate 8192 (0:ℝ), List.replicate 8192 (0:ℝ),
      List.replicate 8192 (0:ℝ), List.replicate 8192 (0:ℝ),
      List.replicate 8192 (0:ℝ), List.replicate 8192 (0:ℝ)],
      d.length = 8192 := fun d hd => by
  rw [mem_eight _ hd, List.length_replicate]

theorem rowIndexPairs_bounds {p : ℕ × ℕ} (h : p ∈ rowIndexPairs) :
    1 ≤ p.1 ∧ p.1 ≤ 256 ∧ 1 ≤ p.2 ∧ p.2 ≤ 32 := by
  unfold rowIndexPairs at h
  obtain ⟨m, hm, hx⟩ := List.mem_flatMap.mp h
  obtain ⟨r, hr, rfl⟩ := List.mem_map.mp hx
  rw [List.mem_range] at hm hr
  have hm' : m < 256 := hm
  have hr' : r < 32 := hr
  refine ⟨by omega, by omega, by omega, by omega⟩

theorem lexLt_ne {p q : ℕ × ℕ} (h : lexLt p q) : p ≠ q := by
  intro hpq
  subst hpq
  rcases h with h | ⟨h1, h2⟩ <;> omega

/-- C5: for a valid sample (each of the eight parameter vectors has exactly
8192 values) the assembler writes the header and then exactly 8192 data
rows, enumerated in (meridian ascending, radial ascending) order; every row
has `Meridian_Index ∈ [1, 256]` and `Radial_Index ∈ [1, 32]`, and each
(Meridian_Index, Radial_Index) pair occurs exactly once. -/
theorem C5_output_shape (aa ap ea ep ak ha hp pa : List ℝ)
    (hlen : ∀ d ∈ [aa, ap, ea, ep, ak, ha, hp, pa], d.length = 8192) :
    ∃ rows : List GridRow,
      process_patient_data aa ap ea ep ak ha hp pa =
        ([S3Event.createOutput, S3Event.writeHeader] ++
          rows.map S3Event.writeRow, .ok ()) ∧
      rows.length = 8192 ∧
      rows.map (fun row => (row.geometry.meridian_index,
        row.geometry.radial_index)) = rowIndexPairs ∧
      List.Pairwise lexLt (rows.map fun row =>
        (row.geometry.meridian_index, row.geometry.radial_index)) ∧
      (rows.map fun row => (row.geometry.meridian_index,
        row.geometry.radial_index)).Nodup ∧
      (∀ row ∈ rows, 1 ≤ row.geometry.meridian_index ∧
        row.geometry.meridian_index ≤ 256 ∧
        1 ≤ row.geometry.radial_index ∧ row.geometry.radial_index ≤ 32) := by
  have hge : ∀ d ∈ [aa, ap, ea, ep, ak, ha, hp, pa], 8192 ≤ d.length := by
    intro d hd
    rw [hlen d hd]
  obtain ⟨rows, hok, hkeys, hcount⟩ :=
    process_rows_ok aa ap ea ep ak ha hp pa hge
  refine ⟨rows, ?_, hcount, hkeys, ?_, ?_, ?_⟩
  · simp only [process_patient_data, hok]
  · rw [hkeys]
    exact rowIndexPairs_pairwise
  · rw [hkeys]
    exact rowIndexPairs_pairwise.imp fun h => lexLt_ne h
  · intro row hrow
    have hmem : (row.geometry.meridian_index, row.geometry.radial_index)
        ∈ rowIndexPairs := by
      rw [← hkeys]
      exact List.mem_map_of_mem _ hrow
    exact rowIndexPairs_bounds hmem

/-- Witness for `C5_output_shape` at the all-zero sample. -/
theorem C5_output_shape_witness :
    (∀ d ∈ [List.replicate 8192 (0:ℝ), List.replicate 8192 (0:ℝ),
        List.replicate 8192 (0:ℝ), List.replicate 8192 (0:ℝ),
        List.replicate 8192 (0:ℝ), List.replicate 8192 (0:ℝ),
        List.replicate 8192 (0:ℝ), List.replicate 8192 (0:ℝ)],
      d.length = 8192) ∧
    ∃ rows : List GridRow,
      process_patient_data (List.replicate 8192 (0:ℝ))
          (List.replicate 8192 (0:ℝ)) (List.replicate 8192 (0:ℝ))
          (List.replicate 8192 (0:ℝ)) (List.replicate 8192 (0:ℝ))
          (List.replicate 8192 (0:ℝ)) (List.replicate 8192 (0:ℝ))
          (List.replicate 8192 (0:ℝ)) =
        ([S3Event.createOutput, S3Event.writeHeader] ++
          rows.map S3Event.writeRow, .ok ()) ∧
      rows.length = 8192 := by
  refine ⟨zeros_hlen, ?_⟩
  obtain ⟨rows, h1, h2, -⟩ := C5_output_shape
    (List.replicate 8192 (0:ℝ)) (List.replicate 8192 (0:ℝ))
    (List.replicate 8192 (0:ℝ)) (List.replicate 8192 (0:ℝ))
    (List.replicate 8192 (0:ℝ)) (List.replicate 8192 (0:ℝ))
    (List.replicate 8192 (0:ℝ)) (List.replicate 8192 (0:ℝ)) zeros_hlen
  exact ⟨rows, h1, h2⟩

end GridFixMulti

namespace GridFixMulti

theorem mkParameters_snd_mem {aa ap ea ep ak ha hp pa : List ℝ}
    {p : String × List ℝ} (hmem : p ∈ mkParameters aa ap ea ep ak ha hp pa) :
    p.2 ∈ [aa, ap, ea, ep, ak, ha, hp, pa] := by
  unfold mkParameters at hmem
  simp only [List.mem_cons, List.not_mem_nil, or_false] at hmem
  rcases hmem with rfl | rfl | rfl | rfl | rfl | rfl | rfl | rfl <;> simp

/-- C6: every emitted cell for a parameter P is the pair
`(P_Value, P_Scaled)` where `P_Scaled = (P_Value - mean_P) / stddev_P`,
`mean_P` is the mean over that parameter's 8192 values and `stddev_P` is the
Bessel-corrected `(N - 1)` standard deviation of the same values, and
`P_Scaled = 0` whenever `stddev_P ≤ 0`; in particular a constant parameter
vector yields scaled value 0 (never NaN - `scale_value` returns 0, not a
division by zero, when the deviation is not positive). -/
theorem C6_scaling_bessel (aa ap ea ep ak ha hp pa : List ℝ)
    (hlen : ∀ d ∈ [aa, ap, ea, ep, ak, ha, hp, pa], d.length = 8192)
    (meridian radial_index : ℕ) (hm : meridian < 256) (hr : radial_index < 32) :
    (∃ row : GridRow,
      makeRow (mkParameters aa ap ea ep ak ha hp pa)
          (mkStatsMap (mkParameters aa ap ea ep ak ha hp pa))
          meridian radial_index = .ok row ∧
      row.cells = (mkParameters aa ap ea ep ak ha hp pa).map fun p =>
        (p.2.getD (meridian * 32 + radial_index) 0,
         if Real.sqrt (((p.2.map fun x =>
               (x - p.2.sum / 8192) * (x - p.2.sum / 8192)).sum) / (8192 - 1)) ≤ 0
         then 0
         else (p.2.getD (meridian * 32 + radial_index) 0 - p.2.sum / 8192) /
           Real.sqrt (((p.2.map fun x =>
               (x - p.2.sum / 8192) * (x - p.2.sum / 8192)).sum) / (8192 - 1)))) ∧
    (∀ (c : ℝ) (n : ℕ), scale_value c (calculate_stats (List.replicate n c)) = 0) := by
  constructor
  · have hge : ∀ d ∈ [aa, ap, ea, ep, ak, ha, hp, pa], 8192 ≤ d.length :=
      fun d hd => le_of_eq (hlen d hd).symm
    refine ⟨_, makeRow_spec aa ap ea ep ak ha hp pa meridian radial_index
      hm hr hge, ?_⟩
    show ((mkParameters aa ap ea ep ak ha hp pa).map fun p =>
        (p.2.getD (meridian * 32 + radial_index) 0,
         scale_value (p.2.getD (meridian * 32 + radial_index) 0)
           (calculate_stats p.2))) = _
    apply List.map_congr_left
    intro p hmem
    have hl : p.2.length = 8192 := hlen p.2 (mkParameters_snd_mem hmem)
    have hne : ¬ p.2.isEmpty := by
      cases hpp : p.2 with
      | nil => rw [hpp] at hl; simp at hl
      | cons x xs => simp
    have h1 : 1 < p.2.length := by omega
    have hmean := calculate_stats_mean p.2 hne
    have hstd := calculate_stats_std_dev p.2 h1
    rw [scale_value_eq, hmean, hstd, hl]
    norm_num
  · intro c n
    rcases n with - | n
    · simp [calculate_stats, scale_value]
    rcases n with - | j
    · have hstd : (calculate_stats (List.replicate 1 c)).std_dev = 0 := by
        unfold calculate_stats
        rw [if_neg (by simp)]
        simp
      rw [scale_value_eq, hstd]
      simp
    · have hne : ¬ (List.replicate (j + 1 + 1) c).isEmpty := by simp
      have h1 : 1 < (List.replicate (j + 1 + 1) c).length := by simp
      have hmean : (List.replicate (j + 1 + 1) c).sum /
          ((List.replicate (j + 1 + 1) c).length : ℝ) = c := by
        rw [List.sum_replicate, List.length_replicate, nsmul_eq_mul]
        have hnz : ((j + 1 + 1 : ℕ) : ℝ) ≠ 0 := by positivity
        field_simp
      have hstd := calculate_stats_std_dev _ h1
      rw [hmean] at hstd
      have hz : ((List.replicate (j + 1 + 1) c).map fun x =>
          (x - c) * (x - c)).sum = 0 := by
        rw [List.map_replicate, List.sum_replicate]
        simp
      rw [hz] at hstd
      rw [zero_div, Real.sqrt_zero] at hstd
      rw [scale_value_eq, hstd]
      simp

/-- Witness for `C6_scaling_bessel` at the all-zero sample and the first
grid cell. -/
theorem C6_scaling_bessel_witness :
    (∀ d ∈ [List.replicate 8192 (0:ℝ), List.replicate 8192 (0:ℝ),
        List.replicate 8192 (0:ℝ), List.replicate 8192 (0:ℝ),
        List.replicate 8192 (0:ℝ), List.replicate 8192 (0:ℝ),
        List.replicate 8192 (0:ℝ), List.replicate 8192 (0:ℝ)],
      d.length = 8192) ∧ 0 < 256 ∧ 0 < 32 ∧
    (∃ row : GridRow,
      makeRow (mkParameters (List.replicate 8192 (0:ℝ))
          (List.replicate 8192 (0:ℝ)) (List.replicate 8192 (0:ℝ))
          (List.replicate 8192 (0:ℝ)) (List.replicate 8192 (0:ℝ))
          (List.replicate 8192 (0:ℝ)) (List.replicate 8192 (0:ℝ))
          (List.replicate 8192 (0:ℝ)))
        (mkStatsMap (mkParameters (List.replicate 8192 (0:ℝ))
          (List.replicate 8192 (0:ℝ)) (List.replicate 8192 (0:ℝ))
          (List.replicate 8192 (0:ℝ)) (List.replicate 8192 (0:ℝ))
          (List.replicate 8192 (0:ℝ)) (List.replicate 8192 (0:ℝ))
          (List.replicate 8192 (0:ℝ)))) 0 0 = .ok row) ∧
    (∀ c : ℝ, scale_value c (calculate_stats (List.replicate 3 c)) = 0) := by
  have h := C6_scaling_bessel (List.replicate 8192 (0:ℝ))
    (List.replicate 8192 (0:ℝ)) (List.replicate 8192 (0:ℝ))
    (List.replicate 8192 (0:ℝ)) (List.replicate 8192 (0:ℝ))
    (List.replicate 8192 (0:ℝ)) (List.replicate 8192 (0:ℝ))
    (List.replicate 8192 (0:ℝ)) zeros_hlen 0 0 (by norm_num) (by norm_num)
  refine ⟨zeros_hlen, by norm_num, by norm_num, ?_, fun c => h.2 c 3⟩
  obtain ⟨row, hrow, -⟩ := h.1
  exact ⟨row, hrow⟩

end GridFixMulti

namespace GridFixMulti

theorem cos_sin_div_ne_one (x : ℝ) (hx : 0 < x) (hxpi : x < Real.pi) :
    Real.cos (Real.sin x / x) ≠ 1 := by
  have hs : 0 < Real.sin x := Real.sin_pos_of_pos_of_lt_pi hx hxpi
  have hlt : Real.sin x < x := Real.sin_lt hx
  have hy0 : 0 < Real.sin x / x := div_pos hs hx
  have hy1 : Real.sin x / x < 1 := (div_lt_one hx).mpr hlt
  intro hcos
  have hpi3 : (3:ℝ) < Real.pi := Real.pi_gt_three
  have hlow : -(2 * Real.pi) < Real.sin x / x := by nlinarith
  have hhigh : Real.sin x / x < 2 * Real.pi := by nlinarith
  have := (Real.cos_eq_one_iff_of_lt_of_lt hlow hhigh).mp hcos
  exact absurd this (ne_of_gt hy0)

/-- C1 (counterexample): the claim says `Transformed_Radius =
J0(π · Normalized_Radius)` and in particular 1 at `Radial_Index = 1`. At
meridian 0, radial 0 (zero-based) the row has `Normalized_Radius = 0`, so
the claim demands `J0(0) = 1`; but the source passes the *one-based* radial
index to `fourier_bessel_transform`, producing `J0(π/31) =
cos(sin(π/31)/(π/31)) ≠ 1`. -/
theorem C1_counterexample_transformed_radius :
    (gridGeometry 0 0).transformed_radius ≠
      bessel_j0 (Real.pi * (gridGeometry 0 0).normalized_radius) := by
  have hnorm : (gridGeometry 0 0).normalized_radius = 0 := by
    show ((((0:ℕ) + 1 : ℕ) : ℝ) - 1) / (((num_radials : ℕ) : ℝ) - 1) = 0
    norm_num
  rw [hnorm, mul_zero]
  have hrhs : bessel_j0 0 = 1 := by
    unfold bessel_j0
    rw [if_pos rfl]
  rw [hrhs]
  have harg : (((0:ℕ) + 1 : ℕ) : ℝ) / (((num_radials : ℕ) : ℝ) - 1) *
      Real.pi / 1 = Real.pi / 31 := by
    show (((1:ℕ)) : ℝ) / (((32:ℕ) : ℝ) - 1) * Real.pi / 1 = Real.pi / 31
    push_cast
    ring
  have hlhs : (gridGeometry 0 0).transformed_radius =
      Real.cos (Real.sin (Real.pi / 31) / (Real.pi / 31)) := by
    show fourier_bessel_transform ((0:ℕ) + 1) num_radials = _
    unfold fourier_bessel_transform
    simp only
    rw [harg]
    unfold bessel_j0
    rw [if_neg (ne_of_gt (by positivity))]
  rw [hlhs]
  exact cos_sin_div_ne_one (Real.pi / 31) (by positivity)
    (div_lt_self Real.pi_pos (by norm_num))

/-- C1 (amended): `Transformed_Radius` equals `J0` of π times the *one-based*
radial index over 31 - equivalently `J0(π · (Normalized_Radius + 1/31))` -
rather than `J0(π · Normalized_Radius)`; at `Radial_Index = 1` it equals
`J0(π/31) = cos(sin(π/31)/(π/31))`, not 1. -/
theorem C1_amended_transformed_radius (meridian radial_index : ℕ) :
    (gridGeometry meridian radial_index).transformed_radius =
      bessel_j0 (Real.pi *
        ((gridGeometry meridian radial_index).normalized_radius + 1 / 31)) ∧
    (gridGeometry meridian radial_index).transformed_radius =
      bessel_j0 (Real.pi * ((radial_index : ℝ) + 1) / 31) := by
  have hnorm : (gridGeometry meridian radial_index).normalized_radius =
      (radial_index : ℝ) / 31 := by
    show (((radial_index + 1 : ℕ) : ℝ) - 1) / (((32 : ℕ) : ℝ) - 1) = _
    push_cast
    norm_num
  have htrans : (gridGeometry meridian radial_index).transformed_radius =
      bessel_j0 (((radial_index + 1 : ℕ) : ℝ) /
        (((num_radials : ℕ) : ℝ) - 1) * Real.pi / 1) := by
    show fourier_bessel_transform (radial_index + 1) num_radials = _
    unfold fourier_bessel_transform
    simp only
  constructor
  · rw [htrans, hnorm]
    congr 1
    show ((radial_index + 1 : ℕ) : ℝ) / (((32:ℕ) : ℝ) - 1) * Real.pi / 1 = _
    push_cast
    ring
  · rw [htrans]
    congr 1
    show ((radial_index + 1 : ℕ) : ℝ) / (((32:ℕ) : ℝ) - 1) * Real.pi / 1 = _
    push_cast
    ring

end GridFixMulti

namespace GridFixMulti

theorem makeRow_panicked_of_short_pachymetry (aa ap ea ep ak ha hp pa : List ℝ)
    (hshort : pa.length ≤ 8191) :
    makeRow (mkParameters aa ap ea ep ak ha hp pa)
        (mkStatsMap (mkParameters aa ap ea ep ak ha hp pa)) 255 31 =
      .panicked := by
  have hidx : rustIndex pa 8191 = Panics.panicked := by
    rw [rustIndex_eq_panicked_iff]
    omega
  simp [makeRow, lookup_param_cell, mkParameters, List.find?,
    show (num_radials : ℕ) = 32 from rfl, hidx]

theorem process_patient_short_pachymetry (aa ap ea ep ak ha hp pa : List ℝ)
    (hshort : pa.length ≤ 8191) :
    process_patient_data aa ap ea ep ak ha hp pa =
      ([S3Event.createOutput, S3Event.writeHeader], .panicked) := by
  have hrow := makeRow_panicked_of_short_pachymetry aa ap ea ep ak ha hp pa hshort
  have hmem : makeRow (mkParameters aa ap ea ep ak ha hp pa)
      (mkStatsMap (mkParameters aa ap ea ep ak ha hp pa)) 255 31 ∈
      row_jobs (mkParameters aa ap ea ep ak ha hp pa)
        (mkStatsMap (mkParameters aa ap ea ep ak ha hp pa)) := by
    unfold row_jobs
    refine List.mem_flatMap.mpr ⟨255,
      List.mem_range.mpr (by norm_num [num_meridians]), ?_⟩
    exact List.mem_map.mpr ⟨31,
      List.mem_range.mpr (by norm_num [num_radials]), rfl⟩
  have hpan : process_rows (mkParameters aa ap ea ep ak ha hp pa)
      (mkStatsMap (mkParameters aa ap ea ep ak ha hp pa)) = .panicked := by
    unfold process_rows
    exact collectResults_panicked_of_mem (hrow ▸ hmem)
  simp only [process_patient_data, hpan]

theorem process_patient_of_rows_ok (aa ap ea ep ak ha hp pa : List ℝ)
    (rows : List GridRow)
    (hok : process_rows (mkParameters aa ap ea ep ak ha hp pa)
      (mkStatsMap (mkParameters aa ap ea ep ak ha hp pa)) = .ok rows) :
    process_patient_data aa ap ea ep ak ha hp pa =
      ([S3Event.createOutput, S3Event.writeHeader] ++
        rows.map S3Event.writeRow, .ok ()) := by
  simp only [process_patient_data, hok]

/-- C2 (code evaluation): the claim says a parameter vector whose length is
not exactly 8192 makes S3 reject the sample with no output file and the
batch continue. The source has *no* length check: with a 8191-value
Pachymetry vector the row closure indexes out of bounds at
`data_index = 8191` and panics - after the combined file was created and its
header written, so a header-only partial output remains and the uncaught
panic aborts the run; with a 8193-value vector the sample is accepted and
processed normally instead of being rejected. -/
theorem C2_no_length_check_evaluation :
    process_patient_data (List.replicate 8192 (0:ℝ)) (List.replicate 8192 (0:ℝ))
        (List.replicate 8192 (0:ℝ)) (List.replicate 8192 (0:ℝ))
        (List.replicate 8192 (0:ℝ)) (List.replicate 8192 (0:ℝ))
        (List.replicate 8192 (0:ℝ)) (List.replicate 8191 (0:ℝ)) =
      ([S3Event.createOutput, S3Event.writeHeader], .panicked) ∧
    (process_patient_data (List.replicate 8192 (0:ℝ)) (List.replicate 8192 (0:ℝ))
        (List.replicate 8192 (0:ℝ)) (List.replicate 8192 (0:ℝ))
        (List.replicate 8192 (0:ℝ)) (List.replicate 8192 (0:ℝ))
        (List.replicate 8192 (0:ℝ)) (List.replicate 8193 (0:ℝ))).2 =
      .ok () := by
  constructor
  · exact process_patient_short_pachymetry _ _ _ _ _ _ _ _
      (le_of_eq (List.length_replicate 8191 (0:ℝ)))
  · have hge : ∀ d ∈ [List.replicate 8192 (0:ℝ), List.replicate 8192 (0:ℝ),
        List.replicate 8192 (0:ℝ), List.replicate 8192 (0:ℝ),
        List.replicate 8192 (0:ℝ), List.replicate 8192 (0:ℝ),
        List.replicate 8192 (0:ℝ), List.replicate 8193 (0:ℝ)],
        8192 ≤ d.length := by
      intro d hd
      simp only [List.mem_cons, List.not_mem_nil, or_false] at hd
      rcases hd with rfl | rfl | rfl | rfl | rfl | rfl | rfl | rfl <;>
        rw [List.length_replicate]
      omega
    obtain ⟨rows, hok, -, -⟩ := process_rows_ok (List.replicate 8192 (0:ℝ))
      (List.replicate 8192 (0:ℝ)) (List.replicate 8192 (0:ℝ))
      (List.replicate 8192 (0:ℝ)) (List.replicate 8192 (0:ℝ))
      (List.replicate 8192 (0:ℝ)) (List.replicate 8192 (0:ℝ))
      (List.replicate 8193 (0:ℝ)) hge
    rw [process_patient_of_rows_ok (List.replicate 8192 (0:ℝ))
      (List.replicate 8192 (0:ℝ)) (List.replicate 8192 (0:ℝ))
      (List.replicate 8192 (0:ℝ)) (List.replicate 8192 (0:ℝ))
      (List.replicate 8192 (0:ℝ)) (List.replicate 8192 (0:ℝ))
      (List.replicate 8193 (0:ℝ)) rows hok]

end GridFixMulti
